import Mathlib

/-!
Verification of the WaitWhat.ai clarity-risk pipeline.

The repository ships a frontend (types, rendering components, proxy API
routes) together with a specification of a backend scoring-and-aggregation
core.  The backend core itself (Windower, SignalObservationCollector,
RiskScorer, IssueAggregator, TimelineAggregator, SignalBreakdownAggregator)
is not present in the checked-in sources, so those components are modelled
here directly from the specification text; the frontend functions
(formatTime, getSignalColor, signalNames, the GET proxy route handlers)
are embedded from their TypeScript sources.  Real numbers of the code are
modelled as rationals, so all arithmetic is exact.
-/

namespace WaitWhat

/-- Modelled from the spec: the fixed enumerated set of signal names
(§3 SignalObservation): concept_spike, grounding_gap, tmb, visual_mismatch,
structure_order, ramble_ratio. -/
inductive Signal where
  | concept_spike
  | grounding_gap
  | tmb
  | visual_mismatch
  | structure_order
  | ramble_ratio
deriving DecidableEq, Repr

/-- Modelled from the spec: the fixed canonical signal-name ordering used to
break ties deterministically (§3, §4.3). -/
def canonicalSignals : List Signal :=
  [Signal.concept_spike, Signal.grounding_gap, Signal.tmb,
   Signal.visual_mismatch, Signal.structure_order, Signal.ramble_ratio]

/-- Position of a signal in the canonical ordering. -/
def sigIdx : Signal → ℕ
  | Signal.concept_spike => 0
  | Signal.grounding_gap => 1
  | Signal.tmb => 2
  | Signal.visual_mismatch => 3
  | Signal.structure_order => 4
  | Signal.ramble_ratio => 5

/-- Modelled from the spec (§3): a SignalObservation maps each signal name to
an optional severity (a signal may be absent), plus an `unavailable` marker
for signals whose extractor failed for this window. -/
structure SignalObservation where
  severity : Signal → Option ℚ
  unavailable : Signal → Bool

/-- Modelled from the spec (§4.3): the contribution of one signal: for each
signal present and not marked unavailable, `severity * weight[signal]`;
absent or unavailable signals contribute 0. -/
def contribution (w : Signal → ℚ) (obs : SignalObservation) (s : Signal) : ℚ :=
  match obs.severity s with
  | none => 0
  | some v => if obs.unavailable s then 0 else v * w s

/-- A signal is present and not marked unavailable. -/
def availPresent (obs : SignalObservation) (s : Signal) : Bool :=
  (obs.severity s).isSome && !(obs.unavailable s)

/-- Modelled from the spec (§4.3): `score = sum(contributions)`. -/
def score (w : Signal → ℚ) (obs : SignalObservation) : ℚ :=
  (canonicalSignals.map (contribution w obs)).sum

/-- Descending-contribution order with ties broken by the canonical
signal-name ordering (non-strict version, used as the sort relation). -/
def keyLe (c : Signal → ℚ) (a b : Signal) : Prop :=
  c b < c a ∨ (c a = c b ∧ sigIdx a ≤ sigIdx b)

/-- Strict version of `keyLe`: strictly greater contribution, or equal
contribution and strictly earlier canonical position. -/
def keyLt (c : Signal → ℚ) (a b : Signal) : Prop :=
  c b < c a ∨ (c a = c b ∧ sigIdx a < sigIdx b)

instance (c : Signal → ℚ) : DecidableRel (keyLe c) := fun a b => by
  unfold keyLe; infer_instance

instance (c : Signal → ℚ) : DecidableRel (keyLt c) := fun a b => by
  unfold keyLt; infer_instance

/-- Sort a list of signals by descending key, ties by canonical position. -/
def sortSignals (c : Signal → ℚ) (l : List Signal) : List Signal :=
  l.insertionSort (keyLe c)

/-- Modelled from the spec (§4.3): a signal enters `triggered` iff it is
present, not unavailable, and its contribution is at least `trigger_floor`;
the result is ordered by descending contribution, ties broken by the
canonical signal-name ordering. -/
def triggered (w : Signal → ℚ) (obs : SignalObservation) (floor : ℚ) : List Signal :=
  sortSignals (contribution w obs)
    (canonicalSignals.filter
      (fun s => availPresent obs s && decide (floor ≤ contribution w obs s)))

/-- Modelled from the spec (§3): the RiskScore value object. -/
structure RiskScore where
  window_id : ℕ
  score : ℚ
  triggered : List Signal

/-- Modelled from the spec (§4.3): `score(observation, weights) -> RiskScore`,
pure and deterministic. -/
def riskScorer (w : Signal → ℚ) (floor : ℚ) (window_id : ℕ)
    (obs : SignalObservation) : RiskScore :=
  ⟨window_id, score w obs, triggered w obs floor⟩

lemma sigIdx_injective : Function.Injective sigIdx := by
  intro a b h
  cases a <;> cases b <;> simp [sigIdx] at h ⊢

lemma mem_canonicalSignals (s : Signal) : s ∈ canonicalSignals := by
  cases s <;> simp [canonicalSignals]

lemma canonicalSignals_nodup : canonicalSignals.Nodup := by
  decide

lemma keyLe_total (c : Signal → ℚ) : ∀ a b, keyLe c a b ∨ keyLe c b a := by
  intro a b
  rcases lt_trichotomy (c a) (c b) with h | h | h
  · exact Or.inr (Or.inl h)
  · rcases Nat.le_total (sigIdx a) (sigIdx b) with hi | hi
    · exact Or.inl (Or.inr ⟨h, hi⟩)
    · exact Or.inr (Or.inr ⟨h.symm, hi⟩)
  · exact Or.inl (Or.inl h)

lemma keyLe_trans (c : Signal → ℚ) :
    ∀ a b d, keyLe c a b → keyLe c b d → keyLe c a d := by
  intro a b d hab hbd
  rcases hab with h1 | ⟨h1, h1i⟩ <;> rcases hbd with h2 | ⟨h2, h2i⟩
  · exact Or.inl (h2.trans h1)
  · exact Or.inl (h2 ▸ h1)
  · exact Or.inl (by rw [h1]; exact h2)
  · exact Or.inr ⟨h1.trans h2, h1i.trans h2i⟩

lemma sortSignals_perm (c : Signal → ℚ) (l : List Signal) :
    (sortSignals c l).Perm l :=
  List.perm_insertionSort (keyLe c) l

lemma sortSignals_sorted (c : Signal → ℚ) (l : List Signal) :
    (sortSignals c l).Sorted (keyLe c) := by
  haveI : IsTotal Signal (keyLe c) := ⟨keyLe_total c⟩
  haveI : IsTrans Signal (keyLe c) := ⟨keyLe_trans c⟩
  exact List.sorted_insertionSort (keyLe c) l

lemma sortSignals_sorted_strict (c : Signal → ℚ) (l : List Signal)
    (hl : l.Nodup) : (sortSignals c l).Sorted (keyLt c) := by
  have hnd : (sortSignals c l).Nodup := (sortSignals_perm c l).nodup_iff.mpr hl
  have hs := sortSignals_sorted c l
  refine List.Pairwise.imp_of_mem ?_ (List.Pairwise.and hs hnd)
  intro a b _ _ hab
  rcases hab with ⟨hle, hne⟩
  rcases hle with h | ⟨h, hi⟩
  · exact Or.inl h
  · refine Or.inr ⟨h, lt_of_le_of_ne hi ?_⟩
    intro he
    exact hne (sigIdx_injective he)

lemma sum_contribution_eq (w : Signal → ℚ) (obs : SignalObservation) :
    ∀ l : List Signal,
      (l.map (contribution w obs)).sum =
      ((l.filter (fun s => availPresent obs s)).map
        (fun s => ((obs.severity s).getD 0) * w s)).sum := by
  intro l
  induction l with
  | nil => rfl
  | cons a t ih =>
    by_cases ha : availPresent obs a
    · have ha2 := ha
      unfold availPresent at ha2
      rw [Bool.and_eq_true] at ha2
      have hsev : (obs.severity a).isSome := ha2.1
      have hun : obs.unavailable a = false := by
        have := ha2.2
        simpa using this
      obtain ⟨v, hv⟩ := Option.isSome_iff_exists.mp hsev
      simp only [List.map_cons, List.sum_cons, List.filter_cons, ha, ih,
        if_true]
      simp [contribution, hv, hun]
    · have hc : contribution w obs a = 0 := by
        unfold contribution
        rcases hsev : obs.severity a with _ | v
        · rfl
        · have : obs.unavailable a = true := by
            by_contra hcon
            apply ha
            unfold availPresent
            simp [hsev, Bool.eq_false_iff.mpr hcon]
          simp [this]
      have ha' : availPresent obs a = false := Bool.eq_false_iff.mpr ha
      simp [List.filter_cons, ha', hc, ih]

/-- C1: the RiskScorer's score equals the sum over present-and-available
signals of `severity * weight[signal]`; a signal is in `triggered` iff it is
present-and-available and its contribution is `≥ trigger_floor`; and
`triggered` is sorted by descending contribution, ties broken by the fixed
canonical signal-name ordering. -/
theorem riskScorer_score_triggered_correct (w : Signal → ℚ)
    (obs : SignalObservation) (floor : ℚ) (window_id : ℕ) :
    (riskScorer w floor window_id obs).score =
      ((canonicalSignals.filter (fun s => availPresent obs s)).map
        (fun s => ((obs.severity s).getD 0) * w s)).sum ∧
    (∀ s : Signal, s ∈ (riskScorer w floor window_id obs).triggered ↔
      (availPresent obs s = true ∧ floor ≤ contribution w obs s)) ∧
    (riskScorer w floor window_id obs).triggered.Sorted
      (keyLt (contribution w obs)) := by
  refine ⟨?_, ?_, ?_⟩
  · exact sum_contribution_eq w obs canonicalSignals
  · intro s
    unfold riskScorer triggered
    rw [(sortSignals_perm _ _).mem_iff]
    simp [List.mem_filter, mem_canonicalSignals]
  · exact sortSignals_sorted_strict _ _
      (canonicalSignals_nodup.filter _)

/-- A window together with its composite risk, as consumed by the
TimelineAggregator (one RiskScore per Window, flagged or not). -/
structure ScoredWindow where
  id : ℕ
  start_sec : ℚ
  end_sec : ℚ
  risk : ℚ

/-- Modelled from the spec (§4.5): `num_bins = ceil(duration_sec / bin_size_sec)`. -/
def numBins (d b : ℚ) : ℕ := (Int.ceil (d / b)).toNat

/-- A window's time interval intersects bin `i` (bins have width `b`). -/
def intersects (b : ℚ) (i : ℕ) (wd : ScoredWindow) : Bool :=
  decide (wd.start_sec < ((i : ℚ) + 1) * b) && decide ((i : ℚ) * b < wd.end_sec)

/-- Modelled from the spec (§4.5): for each bin, aggregate the risk of all
windows whose time interval intersects the bin using `max` (0 when no window
intersects). -/
def binRaw (ws : List ScoredWindow) (b : ℚ) (i : ℕ) : ℚ :=
  ((ws.filter (intersects b i)).map ScoredWindow.risk).foldr max 0

/-- The raw (pre-normalization) bin values. -/
def rawValues (ws : List ScoredWindow) (d b : ℚ) : List ℚ :=
  (List.range (numBins d b)).map (binRaw ws b)

/-- The TimelineHeatmap record (src/frontend/app/types.ts); the `peaks` field
is not involved in any claim and is omitted. -/
structure TimelineHeatmap where
  bin_size_sec : ℚ
  duration_sec : ℚ
  values : List ℚ

/-- Modelled from the spec (§4.5): normalize the raw values into [0,1] by
dividing by `max(raw_values)` if that maximum is > 0, else all values are 0. -/
def timelineAggregator (ws : List ScoredWindow) (d b : ℚ) : TimelineHeatmap :=
  ⟨b, d,
    if 0 < (rawValues ws d b).foldr max 0
    then (rawValues ws d b).map (fun x => x / (rawValues ws d b).foldr max 0)
    else (rawValues ws d b).map (fun _ => 0)⟩

lemma mem_le_foldr_max (l : List ℚ) (x : ℚ) (hx : x ∈ l) :
    x ≤ l.foldr max 0 := by
  induction l with
  | nil => cases hx
  | cons a t ih =>
    rcases List.mem_cons.mp hx with rfl | hxt
    · exact le_max_left _ _
    · exact (ih hxt).trans (le_max_right _ _)

lemma foldr_max_nonneg (l : List ℚ) : 0 ≤ l.foldr max 0 := by
  induction l with
  | nil => exact le_refl 0
  | cons a t ih => exact ih.trans (le_max_right _ _)

lemma foldr_max_eq_zero (l : List ℚ) (h : ∀ x ∈ l, x = 0) :
    l.foldr max 0 = 0 := by
  induction l with
  | nil => rfl
  | cons a t ih =>
    have ha : a = 0 := h a (List.mem_cons_self a t)
    have ht : t.foldr max 0 = 0 := ih (fun x hx => h x (List.mem_cons_of_mem a hx))
    simp [ha, ht]

lemma binRaw_nonneg (ws : List ScoredWindow) (b : ℚ) (i : ℕ) :
    0 ≤ binRaw ws b i :=
  foldr_max_nonneg _

/-- C3: the heatmap has exactly `ceil(duration_sec / bin_size_sec)` values. -/
theorem timeline_values_length (ws : List ScoredWindow) (d b : ℚ)
    (hd : 0 < d) (hb : 0 < b) :
    (timelineAggregator ws d b).values.length = (Int.ceil (d / b)).toNat := by
  have hval : (timelineAggregator ws d b).values =
      (if 0 < (rawValues ws d b).foldr max 0
       then (rawValues ws d b).map (fun x => x / (rawValues ws d b).foldr max 0)
       else (rawValues ws d b).map (fun _ => 0)) := rfl
  rw [hval]
  split <;> simp [rawValues, numBins]

/-- C3 witness. -/
theorem timeline_values_length_witness :
    (timelineAggregator [] 10 4).values.length = (Int.ceil ((10 : ℚ) / 4)).toNat :=
  timeline_values_length [] 10 4 (by norm_num) (by norm_num)

/-- C2: the heatmap values are the raw per-bin maxima normalized by
`max(raw_values)` when that maximum is positive and all zeros otherwise;
every value lies in [0,1]; and all values are 0 iff every window's risk is 0. -/
theorem timeline_values_bounds_zero_iff (ws : List ScoredWindow) (d b : ℚ)
    (hb : 0 < b)
    (hw : ∀ wd ∈ ws, 0 ≤ wd.start_sec ∧ wd.start_sec < wd.end_sec ∧ wd.end_sec ≤ d)
    (hr : ∀ wd ∈ ws, 0 ≤ wd.risk) :
    ((timelineAggregator ws d b).values =
      (if 0 < (rawValues ws d b).foldr max 0
       then (rawValues ws d b).map (fun x => x / (rawValues ws d b).foldr max 0)
       else (rawValues ws d b).map (fun _ => 0))) ∧
    (∀ v ∈ (timelineAggregator ws d b).values, 0 ≤ v ∧ v ≤ 1) ∧
    ((∀ v ∈ (timelineAggregator ws d b).values, v = 0) ↔
      (∀ wd ∈ ws, wd.risk = 0)) := by
  refine ⟨rfl, ?_, ?_, ?_⟩
  · intro v hv
    unfold timelineAggregator at hv
    by_cases hm : 0 < (rawValues ws d b).foldr max 0
    · rw [if_pos hm] at hv
      obtain ⟨x, hx, rfl⟩ := List.mem_map.mp hv
      constructor
      · rcases List.mem_map.mp hx with ⟨i, _, rfl⟩
        exact div_nonneg (binRaw_nonneg ws b i) hm.le
      · exact (div_le_one hm).mpr (mem_le_foldr_max _ _ hx)
    · rw [if_neg hm] at hv
      obtain ⟨x, _, rfl⟩ := List.mem_map.mp hv
      norm_num
  · -- all values 0 → all risks 0
    intro hz wd hwd
    by_contra hne
    have hpos : 0 < wd.risk := lt_of_le_of_ne (hr wd hwd) (Ne.symm hne)
    obtain ⟨hs0, hse, hed⟩ := hw wd hwd
    -- the bin containing wd.start_sec
    set i : ℕ := (Int.floor (wd.start_sec / b)).toNat with hi
    have hfl0 : (0 : ℤ) ≤ Int.floor (wd.start_sec / b) :=
      Int.floor_nonneg.mpr (div_nonneg hs0 hb.le)
    have hic : ((i : ℤ) : ℚ) = ((Int.floor (wd.start_sec / b) : ℤ) : ℚ) := by
      rw [hi]; norm_cast; exact Int.toNat_of_nonneg hfl0
    have hiq : (i : ℚ) = ((Int.floor (wd.start_sec / b) : ℤ) : ℚ) := by
      exact_mod_cast hic
    have hibound : i < numBins d b := by
      have h1 : wd.start_sec / b < d / b :=
        (div_lt_div_iff_of_pos_right hb).mpr (hse.trans_le hed)
      have h2 : (Int.floor (wd.start_sec / b) : ℚ) < (Int.ceil (d / b) : ℚ) :=
        lt_of_le_of_lt (Int.floor_le _) (h1.trans_le (Int.le_ceil _))
      have h3 : Int.floor (wd.start_sec / b) < Int.ceil (d / b) := by
        exact_mod_cast h2
      have h4 : (0 : ℤ) < Int.ceil (d / b) := lt_of_le_of_lt hfl0 h3
      unfold numBins
      omega
    have hint : intersects b i wd = true := by
      unfold intersects
      rw [Bool.and_eq_true, decide_eq_true_iff, decide_eq_true_iff]
      constructor
      · have h1 : wd.start_sec / b < (i : ℚ) + 1 := by
          rw [hiq]; exact Int.lt_floor_add_one _
        calc wd.start_sec = (wd.start_sec / b) * b := by field_simp
          _ < ((i : ℚ) + 1) * b := by
              exact mul_lt_mul_of_pos_right h1 hb
      · have h1 : (i : ℚ) ≤ wd.start_sec / b := by
          rw [hiq]; exact Int.floor_le _
        calc (i : ℚ) * b ≤ (wd.start_sec / b) * b :=
              mul_le_mul_of_nonneg_right h1 hb.le
          _ = wd.start_sec := by field_simp
          _ < wd.end_sec := hse
    have hbin : wd.risk ≤ binRaw ws b i := by
      apply mem_le_foldr_max
      exact List.mem_map.mpr ⟨wd, List.mem_filter.mpr ⟨hwd, hint⟩, rfl⟩
    have hbinpos : 0 < binRaw ws b i := lt_of_lt_of_le hpos hbin
    have hmem : binRaw ws b i ∈ rawValues ws d b :=
      List.mem_map.mpr ⟨i, List.mem_range.mpr hibound, rfl⟩
    have hmpos : 0 < (rawValues ws d b).foldr max 0 :=
      lt_of_lt_of_le hbinpos (mem_le_foldr_max _ _ hmem)
    have hvm : binRaw ws b i / (rawValues ws d b).foldr max 0 ∈
        (timelineAggregator ws d b).values := by
      unfold timelineAggregator
      rw [if_pos hmpos]
      exact List.mem_map.mpr ⟨binRaw ws b i, hmem, rfl⟩
    have := hz _ hvm
    rw [div_eq_zero_iff] at this
    rcases this with h | h
    · exact absurd h (ne_of_gt hbinpos)
    · exact absurd h (ne_of_gt hmpos)
  · -- all risks 0 → all values 0
    intro hz v hv
    have hraw : ∀ x ∈ rawValues ws d b, x = 0 := by
      intro x hx
      rcases List.mem_map.mp hx with ⟨i, _, rfl⟩
      unfold binRaw
      apply foldr_max_eq_zero
      intro y hy
      rcases List.mem_map.mp hy with ⟨wd, hwd, rfl⟩
      exact hz wd (List.mem_filter.mp hwd).1
    have hm : (rawValues ws d b).foldr max 0 = 0 := foldr_max_eq_zero _ hraw
    unfold timelineAggregator at hv
    rw [hm] at hv
    simp only [lt_irrefl, if_false] at hv
    rcases List.mem_map.mp hv with ⟨x, _, rfl⟩
    rfl

/-- A concrete two-window run used to witness the heatmap theorem. -/
def wsW : List ScoredWindow := [⟨0, 0, 10, 5⟩, ⟨1, 10, 20, 2⟩]

/-- C2 witness. -/
theorem timeline_values_bounds_zero_iff_witness :
    ((timelineAggregator wsW 20 8).values =
      (if 0 < (rawValues wsW 20 8).foldr max 0
       then (rawValues wsW 20 8).map (fun x => x / (rawValues wsW 20 8).foldr max 0)
       else (rawValues wsW 20 8).map (fun _ => 0))) ∧
    (∀ v ∈ (timelineAggregator wsW 20 8).values, 0 ≤ v ∧ v ≤ 1) ∧
    ((∀ v ∈ (timelineAggregator wsW 20 8).values, v = 0) ↔
      (∀ wd ∈ wsW, wd.risk = 0)) :=
  timeline_values_bounds_zero_iff wsW 20 8 (by norm_num)
    (by
      intro wd hwd
      rcases List.mem_cons.mp hwd with rfl | hwd2
      · exact ⟨by norm_num, by norm_num, by norm_num⟩
      rcases List.mem_cons.mp hwd2 with rfl | hwd3
      · exact ⟨by norm_num, by norm_num, by norm_num⟩
      · cases hwd3)
    (by
      intro wd hwd
      rcases List.mem_cons.mp hwd with rfl | hwd2
      · norm_num
      rcases List.mem_cons.mp hwd2 with rfl | hwd3
      · norm_num
      · cases hwd3)

/-- Modelled from the spec (§4.6): the per-Issue view the breakdown needs —
the Issue's triggered-signal list and, for each signal, the contribution of
that signal in the Issue's window (severity times configured weight). -/
structure BreakdownInput where
  triggered : List Signal
  contrib : Signal → ℚ

/-- Modelled from the spec (§4.6): `segments = count of distinct Issues
containing that signal in signals_triggered`. -/
def segments (issues : List BreakdownInput) (s : Signal) : ℕ :=
  (issues.filter (fun it => decide (s ∈ it.triggered))).length

/-- Modelled from the spec (§4.6): `weight = sum(contribution of that signal
across all Issues where it was triggered)`. -/
def sigWeight (issues : List BreakdownInput) (s : Signal) : ℚ :=
  ((issues.filter (fun it => decide (s ∈ it.triggered))).map
    (fun it => it.contrib s)).sum

/-- Modelled from the spec (§4.6): `total_weight = sum(weight over all signals)`. -/
def totalWeight (issues : List BreakdownInput) : ℚ :=
  (canonicalSignals.map (sigWeight issues)).sum

/-- The SignalBreakdownItem record (src/frontend/app/types.ts). -/
structure SignalBreakdownItem where
  signal : Signal
  weight : ℚ
  percent : ℚ
  segments : ℕ

/-- One breakdown item: `percent = 100 * weight / total_weight` (0 when
`total_weight = 0`, which is how rational division by zero behaves here). -/
def mkItem (issues : List BreakdownInput) (s : Signal) : SignalBreakdownItem :=
  ⟨s, sigWeight issues s, 100 * sigWeight issues s / totalWeight issues,
   segments issues s⟩

/-- Modelled from the spec (§4.6): items cover the signals with non-zero
weight (when `total_weight = 0` the item list is empty), sorted by descending
weight, ties broken by canonical signal-name order. -/
def breakdownItems (issues : List BreakdownInput) : List SignalBreakdownItem :=
  (sortSignals (sigWeight issues)
    (canonicalSignals.filter (fun s => decide (sigWeight issues s ≠ 0)))).map
    (mkItem issues)

/-- The SignalBreakdown record (src/frontend/app/types.ts); the `mode` string
is not involved in any claim and is omitted. -/
structure SignalBreakdown where
  total_weight : ℚ
  items : List SignalBreakdownItem

/-- Modelled from the spec (§4.6): the SignalBreakdownAggregator. -/
def signalBreakdownAggregator (issues : List BreakdownInput) : SignalBreakdown :=
  ⟨totalWeight issues, breakdownItems issues⟩

lemma sigWeight_nonneg (issues : List BreakdownInput)
    (hc : ∀ it ∈ issues, ∀ s, 0 ≤ it.contrib s) (s : Signal) :
    0 ≤ sigWeight issues s := by
  apply List.sum_nonneg
  intro x hx
  rcases List.mem_map.mp hx with ⟨it, hit, rfl⟩
  exact hc it (List.mem_filter.mp hit).1 s

lemma sum_map_filter_ne_zero (f : Signal → ℚ) :
    ∀ l : List Signal,
      ((l.filter (fun s => decide (f s ≠ 0))).map f).sum = (l.map f).sum := by
  intro l
  induction l with
  | nil => rfl
  | cons a t ih =>
    rw [List.filter_cons]
    by_cases ha : f a = 0
    · have hd : (decide (f a ≠ 0)) = false := by simp [ha]
      rw [hd]
      simp only [Bool.false_eq_true, if_false, ih, List.map_cons, List.sum_cons,
        ha, zero_add]
    · have hd : (decide (f a ≠ 0)) = true := by simp [ha]
      rw [hd]
      simp only [if_true, List.map_cons, List.sum_cons, ih]

lemma sum_map_mul_div (T : ℚ) (f : Signal → ℚ) :
    ∀ l : List Signal,
      (l.map (fun s => 100 * f s / T)).sum = 100 * (l.map f).sum / T := by
  intro l
  induction l with
  | nil => simp
  | cons a t ih =>
    simp only [List.map_cons, List.sum_cons, ih]
    rw [mul_add, add_div]

/-- C4: whenever the breakdown's item list is non-empty (given the spec's
non-negative contributions), the item percentages sum to exactly 100. -/
theorem breakdown_percent_sum (issues : List BreakdownInput)
    (hc : ∀ it ∈ issues, ∀ s, 0 ≤ it.contrib s)
    (hne : (signalBreakdownAggregator issues).items ≠ []) :
    ((signalBreakdownAggregator issues).items.map
      SignalBreakdownItem.percent).sum = 100 := by
  have hwnn : ∀ s, 0 ≤ sigWeight issues s := sigWeight_nonneg issues hc
  -- some signal has non-zero weight
  have hfil : (canonicalSignals.filter
      (fun s => decide (sigWeight issues s ≠ 0))) ≠ [] := by
    intro h
    apply hne
    show breakdownItems issues = []
    unfold breakdownItems
    rw [List.map_eq_nil_iff, h]
    rfl
  obtain ⟨s0, hs0⟩ := List.exists_mem_of_ne_nil _ hfil
  have hs0p := List.mem_filter.mp hs0
  have hs0ne : sigWeight issues s0 ≠ 0 := by
    have := hs0p.2
    rwa [decide_eq_true_iff] at this
  have hs0pos : 0 < sigWeight issues s0 :=
    lt_of_le_of_ne (hwnn s0) (Ne.symm hs0ne)
  have hTpos : 0 < totalWeight issues := by
    apply lt_of_lt_of_le hs0pos
    apply List.single_le_sum (fun x hx => ?_) _
      (List.mem_map.mpr ⟨s0, mem_canonicalSignals s0, rfl⟩)
    rcases List.mem_map.mp hx with ⟨s, _, rfl⟩
    exact hwnn s
  -- the percent of an item built from s is 100 * weight s / total
  show ((breakdownItems issues).map SignalBreakdownItem.percent).sum = 100
  unfold breakdownItems
  rw [List.map_map]
  have hcomp : (SignalBreakdownItem.percent ∘ mkItem issues) =
      (fun s => 100 * sigWeight issues s / totalWeight issues) := rfl
  rw [hcomp, ((sortSignals_perm (sigWeight issues) _).map
    (fun s => 100 * sigWeight issues s / totalWeight issues)).sum_eq]
  rw [sum_map_mul_div, sum_map_filter_ne_zero]
  show 100 * totalWeight issues / totalWeight issues = 100
  rw [mul_div_assoc, div_self (ne_of_gt hTpos), mul_one]

/-- A concrete one-Issue run used to witness the breakdown theorem. -/
def issuesW : List BreakdownInput :=
  [⟨[Signal.concept_spike], fun _ => 1⟩]

/-- C4 witness. -/
theorem breakdown_percent_sum_witness :
    ((signalBreakdownAggregator issuesW).items.map
      SignalBreakdownItem.percent).sum = 100 := by
  apply breakdown_percent_sum issuesW
  · intro it hit s
    rcases List.mem_cons.mp hit with rfl | h2
    · norm_num
    · cases h2
  · have hmem : mkItem issuesW Signal.concept_spike ∈
        (signalBreakdownAggregator issuesW).items := by
      show mkItem issuesW Signal.concept_spike ∈ breakdownItems issuesW
      unfold breakdownItems
      apply List.mem_map.mpr
      refine ⟨Signal.concept_spike, ?_, rfl⟩
      rw [(sortSignals_perm _ _).mem_iff]
      apply List.mem_filter.mpr
      refine ⟨mem_canonicalSignals _, ?_⟩
      rw [decide_eq_true_iff]
      show sigWeight issuesW Signal.concept_spike ≠ 0
      unfold sigWeight issuesW
      norm_num [List.filter]
    exact List.ne_nil_of_mem hmem

/-- C5: the breakdown items are sorted by descending weight, ties in weight
broken by the canonical signal-name order. -/
theorem breakdown_items_sorted (issues : List BreakdownInput) :
    (signalBreakdownAggregator issues).items.Sorted
      (fun a b => b.weight < a.weight ∨
        (a.weight = b.weight ∧ sigIdx a.signal < sigIdx b.signal)) := by
  show (breakdownItems issues).Sorted _
  unfold breakdownItems
  have hp := sortSignals_sorted_strict (sigWeight issues)
    (canonicalSignals.filter (fun s => decide (sigWeight issues s ≠ 0)))
    (canonicalSignals_nodup.filter _)
  exact List.Pairwise.map _ (fun a b hab => hab) hp

/-- C6: increasing the weight of a signal with positive severity in a window
(holding all other weights fixed) never decreases the window's score, and a
flagged window (`score ≥ risk_threshold`) stays flagged. -/
theorem score_monotone_in_weight (w w' : Signal → ℚ) (obs : SignalObservation)
    (s : Signal) (v : ℚ) (threshold : ℚ)
    (hsev : obs.severity s = some v) (hv : 0 < v)
    (hle : w s ≤ w' s) (hother : ∀ t, t ≠ s → w' t = w t) :
    score w obs ≤ score w' obs ∧
    (threshold ≤ score w obs → threshold ≤ score w' obs) := by
  have hmain : score w obs ≤ score w' obs := by
    unfold score
    apply List.sum_le_sum
    intro t _
    by_cases hts : t = s
    · subst hts
      unfold contribution
      rw [hsev]
      by_cases hun : obs.unavailable t
      · simp [hun]
      · have hf : obs.unavailable t = false := Bool.eq_false_iff.mpr hun
        simp only [hf, Bool.false_eq_true, if_false]
        exact mul_le_mul_of_nonneg_left hle hv.le
    · unfold contribution
      rw [hother t hts]
  exact ⟨hmain, fun h => h.trans hmain⟩

/-- Concrete weight tables and observation used to witness monotonicity. -/
def wLow : Signal → ℚ := fun _ => 1

/-- The increased weight table: weight of concept_spike raised to 2. -/
def wHigh : Signal → ℚ := fun t => if t = Signal.concept_spike then 2 else 1

/-- An observation where every signal is present with severity 1. -/
def obsOne : SignalObservation := ⟨fun _ => some 1, fun _ => false⟩

/-- C6 witness. -/
theorem score_monotone_in_weight_witness :
    score wLow obsOne ≤ score wHigh obsOne ∧
    (4 ≤ score wLow obsOne → 4 ≤ score wHigh obsOne) :=
  score_monotone_in_weight wLow wHigh obsOne Signal.concept_spike 1 4
    rfl (by norm_num) (by norm_num [wLow, wHigh])
    (by intro t ht; simp [wLow, wHigh, ht])

/-- A transcript window as handed to the per-window extractor stage; the
window's text is not needed by the arithmetic and is omitted. -/
structure WindowIn where
  id : ℕ
  start_sec : ℚ
  end_sec : ℚ

/-- Modelled from the spec (§6): the read-only configuration passed through
every component. -/
structure PipelineConfig where
  weights : Signal → ℚ
  trigger_floor : ℚ
  risk_threshold : ℚ
  bin_size_sec : ℚ
  tier_low : ℚ
  tier_high : ℚ

/-- Modelled from the spec (§4.4): `severity_tier` is a monotone bucketing of
risk with fixed breakpoints (low / medium / high). -/
def severityTier (cfg : PipelineConfig) (r : ℚ) : String :=
  if r < cfg.tier_low then "low" else if r < cfg.tier_high then "medium" else "high"

/-- Modelled from the spec (§3): an Issue, built only for flagged windows. -/
structure Issue where
  segment_id : ℕ
  start_sec : ℚ
  end_sec : ℚ
  risk : ℚ
  severity_tier : String
  signals_triggered : List Signal
  label : String

/-- Modelled from the spec (§4.4): the Issue built from one flagged window;
the label collaborator is a pure function of the window and triggered list. -/
def mkIssue (cfg : PipelineConfig) (labeler : WindowIn → List Signal → String)
    (p : WindowIn × SignalObservation) : Issue :=
  ⟨p.1.id, p.1.start_sec, p.1.end_sec, score cfg.weights p.2,
   severityTier cfg (score cfg.weights p.2),
   triggered cfg.weights p.2 cfg.trigger_floor,
   labeler p.1 (triggered cfg.weights p.2 cfg.trigger_floor)⟩

/-- Modelled from the spec (§5): a window whose extraction was abandoned is
treated as fully failed: no severities, all signals unavailable. -/
def defaultObs : SignalObservation := ⟨fun _ => none, fun _ => true⟩

/-- The join/barrier before aggregation: look a window's observation up in
the arrival list by window id. -/
def lookupObs (arr : List (ℕ × SignalObservation)) (i : ℕ) : SignalObservation :=
  match arr.find? (fun p => p.1 == i) with
  | some p => p.2
  | none => defaultObs

/-- Aggregation over the joined per-window results: risk scores, issues for
flagged windows, heatmap over all windows, breakdown over flagged windows. -/
def pipelineOut (cfg : PipelineConfig)
    (labeler : WindowIn → List Signal → String) (d : ℚ)
    (scored : List (WindowIn × SignalObservation)) :
    List RiskScore × List Issue × TimelineHeatmap × SignalBreakdown :=
  (scored.map (fun p => riskScorer cfg.weights cfg.trigger_floor p.1.id p.2),
   (scored.filter
      (fun p => decide (cfg.risk_threshold ≤ score cfg.weights p.2))).map
     (mkIssue cfg labeler),
   timelineAggregator
     (scored.map (fun p => ⟨p.1.id, p.1.start_sec, p.1.end_sec,
        score cfg.weights p.2⟩))
     d cfg.bin_size_sec,
   signalBreakdownAggregator
     ((scored.filter
        (fun p => decide (cfg.risk_threshold ≤ score cfg.weights p.2))).map
       (fun p => ⟨triggered cfg.weights p.2 cfg.trigger_floor,
         fun s => contribution cfg.weights p.2 s⟩)))

/-- The full pipeline given a per-window observation function. -/
def pipelineCore (cfg : PipelineConfig)
    (labeler : WindowIn → List Signal → String) (d : ℚ)
    (ws : List WindowIn) (obsOf : WindowIn → SignalObservation) :
    List RiskScore × List Issue × TimelineHeatmap × SignalBreakdown :=
  pipelineOut cfg labeler d (ws.map (fun w => (w, obsOf w)))

/-- The canonical arrival list: one `(window id, observation)` pair per
window, in window order, for fixed collaborator responses `resp`. -/
def collectArrivals (resp : WindowIn → SignalObservation)
    (ws : List WindowIn) : List (ℕ × SignalObservation) :=
  ws.map (fun w => (w.id, resp w))

/-- The full pipeline when extractor results arrive in an arbitrary order
`arr`: the join looks each window's observation up by id. -/
def pipelineFromArrivals (cfg : PipelineConfig)
    (labeler : WindowIn → List Signal → String) (d : ℚ)
    (ws : List WindowIn) (arr : List (ℕ × SignalObservation)) :
    List RiskScore × List Issue × TimelineHeatmap × SignalBreakdown :=
  pipelineCore cfg labeler d ws (fun w => lookupObs arr w.id)

lemma find_key_eq_of_perm {β : Type} (i : ℕ) :
    ∀ {l l' : List (ℕ × β)}, l.Perm l' → (l.map Prod.fst).Nodup →
      l.find? (fun p => p.1 == i) = l'.find? (fun p => p.1 == i) := by
  intro l l' h
  induction h with
  | nil => intro _; rfl
  | cons x h ih =>
    intro hnd
    rw [List.map_cons] at hnd
    cases hx : ((fun p => p.1 == i) x)
    · rw [List.find?_cons_of_neg _ (by simp [hx]),
        List.find?_cons_of_neg _ (by simp [hx])]
      exact ih (List.nodup_cons.mp hnd).2
    · rw [List.find?_cons_of_pos _ (by simp [hx]),
        List.find?_cons_of_pos _ (by simp [hx])]
  | swap x y l =>
    intro hnd
    rw [List.map_cons, List.map_cons, List.nodup_cons] at hnd
    have hxy : y.1 ≠ x.1 := by
      intro he
      exact hnd.1 (by rw [he]; exact List.mem_cons_self _ _)
    cases hy : ((fun p => p.1 == i) y) <;> cases hx : ((fun p => p.1 == i) x)
    · rw [List.find?_cons_of_neg _ (by simp_all),
        List.find?_cons_of_neg _ (by simp_all),
        List.find?_cons_of_neg _ (by simp_all),
        List.find?_cons_of_neg _ (by simp_all)]
    · rw [List.find?_cons_of_neg _ (by simp_all),
        List.find?_cons_of_pos _ (by simp_all),
        List.find?_cons_of_pos _ (by simp_all)]
    · rw [List.find?_cons_of_pos _ (by simp_all),
        List.find?_cons_of_neg _ (by simp_all),
        List.find?_cons_of_pos _ (by simp_all)]
    · exfalso
      apply hxy
      have h1 : x.1 = i := by simpa using hx
      have h2 : y.1 = i := by simpa using hy
      rw [h1, h2]
  | trans h1 h2 ih1 ih2 =>
    intro hnd
    exact (ih1 hnd).trans (ih2 (((h1.map Prod.fst).nodup_iff).mp hnd))

lemma collectArrivals_keys (resp : WindowIn → SignalObservation)
    (ws : List WindowIn) :
    (collectArrivals resp ws).map Prod.fst = ws.map WindowIn.id := by
  unfold collectArrivals
  rw [List.map_map]
  rfl

lemma lookupObs_eq_of_perm (arr arr' : List (ℕ × SignalObservation))
    (h : arr.Perm arr') (hnd : (arr.map Prod.fst).Nodup) (i : ℕ) :
    lookupObs arr i = lookupObs arr' i := by
  unfold lookupObs
  rw [find_key_eq_of_perm i h hnd]

/-- C7: the pipeline output — risk scores, issues, heatmap and breakdown —
is the same for any two completion orders of the per-window extractor calls
(any two arrival lists that are permutations of the canonical per-window
results); two runs on identical inputs trivially coincide as well. -/
theorem pipeline_order_independent (cfg : PipelineConfig)
    (labeler : WindowIn → List Signal → String) (d : ℚ)
    (ws : List WindowIn) (resp : WindowIn → SignalObservation)
    (arr₁ arr₂ : List (ℕ × SignalObservation))
    (hnd : (ws.map WindowIn.id).Nodup)
    (hp₁ : arr₁.Perm (collectArrivals resp ws))
    (hp₂ : arr₂.Perm (collectArrivals resp ws)) :
    pipelineFromArrivals cfg labeler d ws arr₁ =
      pipelineFromArrivals cfg labeler d ws arr₂ := by
  have hkeys : ((collectArrivals resp ws).map Prod.fst).Nodup := by
    rw [collectArrivals_keys]; exact hnd
  have hlookup : ∀ (arr : List (ℕ × SignalObservation)),
      arr.Perm (collectArrivals resp ws) → ∀ i,
      lookupObs arr i = lookupObs (collectArrivals resp ws) i := by
    intro arr hp i
    apply lookupObs_eq_of_perm arr _ hp _ i
    exact ((hp.map Prod.fst).nodup_iff).mpr hkeys
  have hcore : ∀ (arr : List (ℕ × SignalObservation)),
      arr.Perm (collectArrivals resp ws) →
      pipelineFromArrivals cfg labeler d ws arr =
        pipelineFromArrivals cfg labeler d ws (collectArrivals resp ws) := by
    intro arr hp
    unfold pipelineFromArrivals pipelineCore
    congr 1
    apply List.map_congr_left
    intro w _
    show (w, lookupObs arr w.id) = (w, lookupObs (collectArrivals resp ws) w.id)
    rw [hlookup arr hp w.id]
  rw [hcore arr₁ hp₁, hcore arr₂ hp₂]

/-- Concrete pipeline inputs used to witness order independence. -/
def winA : WindowIn := ⟨0, 0, 10⟩

/-- Second concrete window. -/
def winB : WindowIn := ⟨1, 10, 20⟩

/-- The concrete window list. -/
def wsP : List WindowIn := [winA, winB]

/-- Fixed collaborator responses: every window observes severity 1 everywhere. -/
def respW : WindowIn → SignalObservation := fun _ => obsOne

/-- A concrete configuration. -/
def cfgW : PipelineConfig := ⟨fun _ => 1, 0, 4, 10, 5, 15 / 2⟩

/-- A fixed label collaborator. -/
def labW : WindowIn → List Signal → String := fun _ _ => "label"

/-- The arrival list with the two extractor results in reversed order. -/
def arrSwapped : List (ℕ × SignalObservation) :=
  [(winB.id, respW winB), (winA.id, respW winA)]

/-- C7 witness. -/
theorem pipeline_order_independent_witness :
    pipelineFromArrivals cfgW labW 20 wsP arrSwapped =
      pipelineFromArrivals cfgW labW 20 wsP (collectArrivals respW wsP) :=
  pipeline_order_independent cfgW labW 20 wsP respW arrSwapped
    (collectArrivals respW wsP)
    (by simp [wsP, winA, winB])
    (List.Perm.swap _ _ _)
    (List.Perm.refl _)

/-- A JSON value, as produced by `res.json()` in the proxy route handlers. -/
inductive Json where
  | null
  | bool (b : Bool)
  | num (q : ℚ)
  | str (s : String)
  | arr (xs : List Json)
  | obj (fields : List (String × Json))

/-- Whether a JSON value is `null` (the nullish case of `payload ?? ...`). -/
def Json.isNull : Json → Bool
  | Json.null => true
  | _ => false

/-- Outcome of the `fetch` to the backend in the route handlers
(src/frontend/app/api/transcript/[file_id]/route.ts and the status route):
either the fetch threw, or it returned a status code together with the result
of `res.json().catch(() => null)` (`none` when the body is not valid JSON). -/
inductive FetchOutcome where
  | threw
  | ok (status : ℕ) (parsed : Option Json)

/-- An HTTP response as produced by `NextResponse.json(body, { status })`. -/
structure HttpResponse where
  status : ℕ
  body : Json

/-- The 502 body `{success: false, error: msg}` built in the catch branch. -/
def errBody (msg : String) : Json :=
  Json.obj [("success", Json.bool false), ("error", Json.str msg)]

/-- The fallback body `{status: 'error'}`. -/
def statusErrorBody : Json :=
  Json.obj [("status", Json.str "error")]

/-- Embedding of both GET route handlers (transcript and status proxy; the
two files are identical up to the URL path and error message `msg`):
on a fetch exception return 502 with `{success: false, error: msg}`;
otherwise return the backend's status with `payload ?? {status: 'error'}`
where `payload` is nullish when JSON parsing failed or parsed to null. -/
def proxyGET (msg : String) (f : FetchOutcome) : HttpResponse :=
  match f with
  | FetchOutcome.threw => ⟨502, errBody msg⟩
  | FetchOutcome.ok st parsed =>
      let payload : Json := parsed.getD Json.null
      ⟨st, if payload.isNull then statusErrorBody else payload⟩

/-- C8 counterexample: when the backend responds with the valid JSON payload
`null`, the handler does not return that payload (as the claim would have it)
— it substitutes `{status: 'error'}`. -/
theorem proxyGET_null_payload_cex :
    (proxyGET "m" (FetchOutcome.ok 200 (some Json.null))).body ≠ Json.null := by
  intro h
  exact Json.noConfusion h

/-- C8 (amended): the handlers never propagate an exception and always return
JSON: a thrown fetch yields 502 with `{success: false, error: ...}`; otherwise
the backend's status is forwarded with the backend's JSON payload as body,
or `{status: 'error'}` when the payload cannot be parsed as JSON or parses to
JSON null. -/
theorem proxyGET_response_spec (msg : String) (f : FetchOutcome) :
    (f = FetchOutcome.threw → proxyGET msg f = ⟨502, errBody msg⟩) ∧
    (∀ st, f = FetchOutcome.ok st none →
      proxyGET msg f = ⟨st, statusErrorBody⟩) ∧
    (∀ st j, f = FetchOutcome.ok st (some j) → j.isNull = false →
      proxyGET msg f = ⟨st, j⟩) ∧
    (∀ st j, f = FetchOutcome.ok st (some j) → j.isNull = true →
      proxyGET msg f = ⟨st, statusErrorBody⟩) := by
  refine ⟨?_, ?_, ?_, ?_⟩
  · intro h; subst h; rfl
  · intro st h; subst h; rfl
  · intro st j h hn
    subst h
    show (⟨st, if j.isNull then statusErrorBody else j⟩ : HttpResponse) = ⟨st, j⟩
    rw [hn]
    rfl
  · intro st j h hn
    subst h
    show (⟨st, if j.isNull then statusErrorBody else j⟩ : HttpResponse) =
      ⟨st, statusErrorBody⟩
    rw [hn]
    rfl

/-- C8 witness. -/
theorem proxyGET_response_spec_witness :
    proxyGET "m" FetchOutcome.threw = ⟨502, errBody "m"⟩ ∧
    proxyGET "m" (FetchOutcome.ok 500 none) = ⟨500, statusErrorBody⟩ ∧
    proxyGET "m" (FetchOutcome.ok 200 (some (Json.str "x"))) =
      ⟨200, Json.str "x"⟩ ∧
    proxyGET "m" (FetchOutcome.ok 200 (some Json.null)) =
      ⟨200, statusErrorBody⟩ :=
  ⟨(proxyGET_response_spec "m" FetchOutcome.threw).1 rfl,
   (proxyGET_response_spec "m" (FetchOutcome.ok 500 none)).2.1 500 rfl,
   (proxyGET_response_spec "m" (FetchOutcome.ok 200 (some (Json.str "x")))).2.2.1
     200 (Json.str "x") rfl rfl,
   (proxyGET_response_spec "m" (FetchOutcome.ok 200 (some Json.null))).2.2.2
     200 Json.null rfl rfl⟩

/-- A JavaScript number as seen by `formatTime`: NaN, the infinities, or a
finite value (modelled exactly as a rational). -/
inductive JSNum where
  | nan
  | posInf
  | negInf
  | finite (q : ℚ)

/-- `Number.isFinite`. -/
def jsIsFinite : JSNum → Bool
  | JSNum.finite _ => true
  | _ => false

/-- `String.padStart(2, '0')`. -/
def padStart2 (s : String) : String :=
  if s.length < 2 then String.mk (List.replicate (2 - s.length) '0') ++ s else s

/-- Embedding of `formatTime` (src/unnamed/part_001, lines 104-112): returns
"0:00" for non-finite or negative input; otherwise formats
`h:mm:ss` when the hour count is positive, else `m:ss` (the intermediate
`let` bindings of the source are inlined). -/
def formatTime : JSNum → String
  | JSNum.finite q =>
      if q < 0 then "0:00"
      else if (Int.floor q).toNat / 3600 > 0 then
        toString ((Int.floor q).toNat / 3600) ++ ":" ++
          padStart2 (toString (((Int.floor q).toNat % 3600) / 60)) ++ ":" ++
          padStart2 (toString ((Int.floor q).toNat % 60))
      else
        toString (((Int.floor q).toNat % 3600) / 60) ++ ":" ++
          padStart2 (toString ((Int.floor q).toNat % 60))
  | _ => "0:00"

/-- C9: formatTime is total: "0:00" on non-finite or negative input; for
finite input `≥ 0` with `floor ≥ 3600` it returns h:mm:ss (hours unpadded,
minutes and seconds zero-padded to two digits), and m:ss (seconds zero-padded
to two digits) otherwise. -/
theorem formatTime_total (x : JSNum) :
    (jsIsFinite x = false → formatTime x = "0:00") ∧
    (∀ q, x = JSNum.finite q → q < 0 → formatTime x = "0:00") ∧
    (∀ q, x = JSNum.finite q → 0 ≤ q →
      (3600 ≤ (Int.floor q).toNat →
        formatTime x = toString ((Int.floor q).toNat / 3600) ++ ":" ++
          padStart2 (toString (((Int.floor q).toNat % 3600) / 60)) ++ ":" ++
          padStart2 (toString ((Int.floor q).toNat % 60))) ∧
      ((Int.floor q).toNat < 3600 →
        formatTime x = toString ((Int.floor q).toNat / 60) ++ ":" ++
          padStart2 (toString ((Int.floor q).toNat % 60)))) := by
  refine ⟨?_, ?_, ?_⟩
  · cases x with
    | nan => intro _; rfl
    | posInf => intro _; rfl
    | negInf => intro _; rfl
    | finite q => intro h; simp [jsIsFinite] at h
  · intro q he hq
    subst he
    show (if q < 0 then "0:00" else _) = "0:00"
    rw [if_pos hq]
  · intro q he hq
    subst he
    have hnot : ¬q < 0 := not_lt.mpr hq
    constructor
    · intro h36
      have hh : 0 < (Int.floor q).toNat / 3600 := Nat.div_pos h36 (by norm_num)
      show (if q < 0 then "0:00" else _) = _
      rw [if_neg hnot, if_pos hh]
    · intro h36
      have hh : ¬(Int.floor q).toNat / 3600 > 0 := by
        have := Nat.div_eq_of_lt h36
        omega
      show (if q < 0 then "0:00" else _) = _
      rw [if_neg hnot, if_neg hh, Nat.mod_eq_of_lt h36]

/-- C9 witness (3725 seconds is 1:02:05). -/
theorem formatTime_total_witness :
    formatTime (JSNum.finite 3725) =
      toString ((Int.floor (3725 : ℚ)).toNat / 3600) ++ ":" ++
        padStart2 (toString (((Int.floor (3725 : ℚ)).toNat % 3600) / 60)) ++ ":" ++
        padStart2 (toString ((Int.floor (3725 : ℚ)).toNat % 60)) := by
  have h := (formatTime_total (JSNum.finite 3725)).2.2 3725 rfl (by norm_num)
  apply h.1
  have hf : Int.floor (3725 : ℚ) = 3725 := by norm_num
  rw [hf]
  norm_num

/-- Embedding of `signalNames` (src/unnamed/part_001, lines 3-9): the
display-name table of SignalDonut. -/
def signalNames : List (String × String) :=
  [("concept_spike", "Concept Density Spikes"),
   ("grounding_gap", "Missing Concept Grounding"),
   ("tmb", "Unsupported Claims Detection"),
   ("structure_order", "Discourse Structure Violations"),
   ("ramble_ratio", "Rambling Ratio")]

/-- Embedding of `getSignalColor` (src/unnamed/part_001, lines 59-74): a
switch over five signal names with a light-gray default. -/
def getSignalColor (signal : String) : String :=
  if signal = "concept_spike" then "#FED7D7"
  else if signal = "grounding_gap" then "#BFDBFE"
  else if signal = "tmb" then "#C6F6D5"
  else if signal = "structure_order" then "#FEF3C7"
  else if signal = "ramble_ratio" then "#FBCFE8"
  else "#E5E7EB"

/-- C10: getSignalColor returns the default light gray for every name outside
the five cases — in particular for `visual_mismatch`, which is also absent
from SignalDonut's display-name table. -/
theorem getSignalColor_default (s : String)
    (hs : s ∉ ["concept_spike", "grounding_gap", "tmb", "structure_order",
      "ramble_ratio"]) :
    getSignalColor s = "#E5E7EB" ∧
    getSignalColor "visual_mismatch" = "#E5E7EB" ∧
    signalNames.lookup "visual_mismatch" = none := by
  refine ⟨?_, by decide, by decide⟩
  simp only [List.mem_cons, List.not_mem_nil, or_false, not_or] at hs
  obtain ⟨h1, h2, h3, h4, h5⟩ := hs
  unfold getSignalColor
  rw [if_neg h1, if_neg h2, if_neg h3, if_neg h4, if_neg h5]

/-- C10 witness. -/
theorem getSignalColor_default_witness :
    getSignalColor "visual_mismatch" = "#E5E7EB" ∧
    getSignalColor "visual_mismatch" = "#E5E7EB" ∧
    signalNames.lookup "visual_mismatch" = none :=
  getSignalColor_default "visual_mismatch" (by decide)

end WaitWhat
